import Mathlib

/-!
Verification development for the Codex CLI on-demand data source
(`SubjectiveCodexDataSource.py`).  The Python class is shallowly embedded:

* JSON / Python data values are `JVal`; `jsonLoads` models `json.loads`
  on newline-delimited protocol lines (returning `none` where Python
  raises `json.JSONDecodeError`).
* Mutable adapter state (`_authenticated`, `_codex_path`, `os.environ`)
  is an explicit `DSState` threaded through the operations.
* Filesystem lookups and subprocess outcomes are supplied by a `World`
  record (results of `shutil.which`, `os.path.isfile`, and the login
  subprocess) and, for `exec`, by a `RunOutcome` argument.
* Python exceptions that escape a function are modelled with
  `Except PyErr`; exceptions caught inside a function are ordinary
  control flow.
-/

/-- A decoded JSON value, as produced by Python's `json.loads`.
Floats are kept opaque (their literal text), since the adapter never
computes with them.  Objects keep their key/value pairs in source
order; lookups take the last binding, as Python dict building does. -/
inductive JVal where
  | null
  | bool (b : Bool)
  | num (n : Int)
  | float (raw : String)
  | str (s : String)
  | arr (elems : List JVal)
  | obj (fields : List (String × JVal))

/-- JSON whitespace skipping, as in Python's `json` scanner. -/
def skipWs : List Char → List Char
  | [] => []
  | c :: cs => if c = ' ' ∨ c = '\t' ∨ c = '\n' ∨ c = '\r' then skipWs cs else c :: cs

def isJDigit (c : Char) : Bool := '0' ≤ c ∧ c ≤ '9'

def hexVal (c : Char) : Option Nat :=
  if isJDigit c then some (c.toNat - 48)
  else if 'a' ≤ c ∧ c ≤ 'f' then some (c.toNat - 87)
  else if 'A' ≤ c ∧ c ≤ 'F' then some (c.toNat - 55)
  else none

/-- Leading decimal digits of a character list, and the remainder. -/
def takeDigits : List Char → List Char × List Char
  | [] => ([], [])
  | c :: cs =>
    if isJDigit c then
      let (ds, r) := takeDigits cs
      (c :: ds, r)
    else ([], c :: cs)

def digitsVal (ds : List Char) : Nat := ds.foldl (fun a c => a * 10 + (c.toNat - 48)) 0

/-- Body of a JSON string literal (after the opening quote), with the
escape sequences `json.loads` accepts; unescaped control characters are
rejected (strict mode).  Returns the decoded string and the remainder
after the closing quote. -/
def parseStrAux : Nat → List Char → List Char → Option (String × List Char)
  | 0, _, _ => none
  | Nat.succ f, acc, cs =>
    match cs with
    | [] => none
    | '\"' :: r => some (String.mk acc.reverse, r)
    | '\\' :: e :: r =>
      match e with
      | '\"' => parseStrAux f ('\"' :: acc) r
      | '\\' => parseStrAux f ('\\' :: acc) r
      | '/' => parseStrAux f ('/' :: acc) r
      | 'b' => parseStrAux f ('\x08' :: acc) r
      | 'f' => parseStrAux f ('\x0c' :: acc) r
      | 'n' => parseStrAux f ('\n' :: acc) r
      | 'r' => parseStrAux f ('\r' :: acc) r
      | 't' => parseStrAux f ('\t' :: acc) r
      | 'u' =>
        match r with
        | h1 :: h2 :: h3 :: h4 :: r2 =>
          match hexVal h1, hexVal h2, hexVal h3, hexVal h4 with
          | some a, some b, some c2, some d =>
            parseStrAux f (Char.ofNat (((a * 16 + b) * 16 + c2) * 16 + d) :: acc) r2
          | _, _, _, _ => none
        | _ => none
      | _ => none
    | c :: r => if c.toNat < 32 then none else parseStrAux f (c :: acc) r

/-- Exponent digits after `e`/`E` (optional sign, then one or more digits). -/
def parseExpDigits (cs : List Char) : Option (List Char) :=
  let cs1 := match cs with
    | '+' :: r => r
    | '-' :: r => r
    | r => r
  let (ds, r) := takeDigits cs1
  if ds.isEmpty then none else some r

/-- Optional exponent part; the flag records whether one was present. -/
def parseExpPart : List Char → Option (Bool × List Char)
  | 'e' :: rest => (parseExpDigits rest).map (fun r => (true, r))
  | 'E' :: rest => (parseExpDigits rest).map (fun r => (true, r))
  | cs => some (false, cs)

/-- Optional fraction part; the flag records whether one was present. -/
def parseFracPart : List Char → Option (Bool × List Char)
  | '.' :: rest =>
    let (ds, r) := takeDigits rest
    if ds.isEmpty then none else some (true, r)
  | cs => some (false, cs)

/-- A JSON number starting at `cs` (strict grammar: no leading zeros,
a fraction/exponent needs digits).  Integer literals become `JVal.num`;
anything with a fraction or exponent becomes an opaque `JVal.float`. -/
def parseNumber (cs : List Char) : Option (JVal × List Char) :=
  let (neg, cs1) := match cs with
    | '-' :: rest => (true, rest)
    | _ => (false, cs)
  match cs1 with
  | [] => none
  | c :: _ =>
    if ¬ isJDigit c then none
    else
      let (ds, cs2) := takeDigits cs1
      if ds.length > 1 ∧ ds.headD '0' = '0' then none
      else
        match parseFracPart cs2 with
        | none => none
        | some (sawFrac, cs3) =>
          match parseExpPart cs3 with
          | none => none
          | some (sawExp, cs4) =>
            if sawFrac ∨ sawExp then
              some (JVal.float (String.mk (cs.take (cs.length - cs4.length))), cs4)
            else
              some (JVal.num (if neg then -(digitsVal ds : Int) else (digitsVal ds : Int)), cs2)

mutual

/-- One JSON value starting at the given characters (fuel-indexed). -/
def parseVal : Nat → List Char → Option (JVal × List Char)
  | 0, _ => none
  | Nat.succ f, cs =>
    match cs with
    | 'n' :: 'u' :: 'l' :: 'l' :: rest => some (JVal.null, rest)
    | 't' :: 'r' :: 'u' :: 'e' :: rest => some (JVal.bool true, rest)
    | 'f' :: 'a' :: 'l' :: 's' :: 'e' :: rest => some (JVal.bool false, rest)
    | 'N' :: 'a' :: 'N' :: rest => some (JVal.float "nan", rest)
    | 'I' :: 'n' :: 'f' :: 'i' :: 'n' :: 'i' :: 't' :: 'y' :: rest =>
      some (JVal.float "inf", rest)
    | '-' :: 'I' :: 'n' :: 'f' :: 'i' :: 'n' :: 'i' :: 't' :: 'y' :: rest =>
      some (JVal.float "-inf", rest)
    | '\"' :: rest => (parseStrAux (rest.length + 1) [] rest).map (fun p => (JVal.str p.1, p.2))
    | '[' :: rest =>
      (match skipWs rest with
       | ']' :: r2 => some (JVal.arr [], r2)
       | r1 => parseArrItems f r1 [])
    | '\x7b' :: rest =>
      (match skipWs rest with
       | '\x7d' :: r2 => some (JVal.obj [], r2)
       | r1 => parseObjItems f r1 [])
    | c :: rest => if c = '-' ∨ isJDigit c then parseNumber (c :: rest) else none
    | [] => none

/-- Comma-separated array elements, after at least one is expected. -/
def parseArrItems : Nat → List Char → List JVal → Option (JVal × List Char)
  | 0, _, _ => none
  | Nat.succ f, cs, acc =>
    match parseVal f cs with
    | none => none
    | some (v, r) =>
      match skipWs r with
      | ',' :: r2 => parseArrItems f (skipWs r2) (acc ++ [v])
      | ']' :: r2 => some (JVal.arr (acc ++ [v]), r2)
      | _ => none

/-- Comma-separated object members, after at least one is expected. -/
def parseObjItems : Nat → List Char → List (String × JVal) → Option (JVal × List Char)
  | 0, _, _ => none
  | Nat.succ f, cs, acc =>
    match cs with
    | '\"' :: r =>
      match parseStrAux (r.length + 1) [] r with
      | none => none
      | some (k, r1) =>
        match skipWs r1 with
        | ':' :: r2 =>
          match parseVal f (skipWs r2) with
          | none => none
          | some (v, r3) =>
            match skipWs r3 with
            | ',' :: r4 => parseObjItems f (skipWs r4) (acc ++ [(k, v)])
            | '\x7d' :: r4 => some (JVal.obj (acc ++ [(k, v)]), r4)
            | _ => none
        | _ => none
    | _ => none

end

/-- Model of `json.loads` applied to one protocol line: `none` where
Python raises `json.JSONDecodeError` (trailing garbage included). -/
def jsonLoads (s : String) : Option JVal :=
  let cs := skipWs s.data
  match parseVal (2 * s.data.length + 4) cs with
  | some (v, r) => if skipWs r = [] then some v else none
  | none => none


/-- Last-binding-wins field lookup, modelling Python `dict.get` on the
dict that `json.loads` builds from the (possibly duplicated) members. -/
def objGet (kvs : List (String × JVal)) (k : String) : Option JVal :=
  kvs.foldl (fun acc kv => if kv.1 = k then some kv.2 else acc) none

/-- Keys in first-occurrence order (Python dict iteration order). -/
def dedupKeys (kvs : List (String × JVal)) : List String :=
  kvs.foldl (fun acc kv => if kv.1 ∈ acc then acc else acc ++ [kv.1]) []

/-- Python type name of a decoded value, as it appears in error messages. -/
def pyTypeName : JVal → String
  | .null => "NoneType"
  | .bool _ => "bool"
  | .num _ => "int"
  | .float _ => "float"
  | .str _ => "str"
  | .arr _ => "list"
  | .obj _ => "dict"

mutual

/-- Python `repr` of a decoded value (used by `str` on lists/dicts). -/
def pyRepr : JVal → String
  | .null => "None"
  | .bool true => "True"
  | .bool false => "False"
  | .num n => toString n
  | .float raw => raw
  | .str s => "\x27" ++ s ++ "\x27"
  | .arr xs => "[" ++ pyReprList xs ++ "]"
  | .obj kvs => "\x7b" ++ pyReprObj kvs ++ "\x7d"

def pyReprList : List JVal → String
  | [] => ""
  | [x] => pyRepr x
  | x :: xs => pyRepr x ++ ", " ++ pyReprList xs

def pyReprObj : List (String × JVal) → String
  | [] => ""
  | [kv] => "\x27" ++ kv.1 ++ "\x27: " ++ pyRepr kv.2
  | kv :: kvs => "\x27" ++ kv.1 ++ "\x27: " ++ pyRepr kv.2 ++ ", " ++ pyReprObj kvs

end

/-- Python `str()` of a decoded value. -/
def pyStr : JVal → String
  | .str s => s
  | v => pyRepr v

/-- A Python exception escaping a modelled function. -/
inductive PyErr where
  | attributeError (msg : String)
  | typeError (msg : String)

/-- Python `str()` of a caught exception. -/
def pyErrStr : PyErr → String
  | .attributeError m => m
  | .typeError m => m

/-- The `AttributeError` raised by `v.get(...)` when `v` is not a dict. -/
def noGetErr (v : JVal) : PyErr :=
  .attributeError ("\x27" ++ pyTypeName v ++ "\x27 object has no attribute \x27get\x27")

/-- Python iteration over a decoded value: lists yield elements, dicts
their keys, strings their characters; the rest raise `TypeError`. -/
def pyIter : JVal → Except PyErr (List JVal)
  | .arr xs => .ok xs
  | .obj kvs => .ok ((dedupKeys kvs).map JVal.str)
  | .str s => .ok (s.data.map (fun c => JVal.str (String.mk [c])))
  | v => .error (.typeError ("\x27" ++ pyTypeName v ++ "\x27 object is not iterable"))

/-- Python `d.get(k) == "lit"` where the lookup result may be absent
(`None`) or of any type: true only for an equal string. -/
def optIsStr (v : Option JVal) (s : String) : Bool :=
  match v with
  | some (.str t) => t = s
  | _ => false

/-- The `TypeError` raised by `assistant_message += item.get("text", "")`
when the text field holds a non-string. -/
def concatTextErr (v : JVal) : PyErr :=
  .typeError ("can only concatenate str (not \"" ++ pyTypeName v ++ "\") to str")

/-- The inner `for item in content` loop of `_parse_json_output`,
accumulating the assistant text. -/
def extractItems : String → List JVal → Except PyErr String
  | acc, [] => .ok acc
  | acc, item :: rest =>
    match item with
    | .obj kvs =>
      if optIsStr (objGet kvs "type") "text" then
        match (objGet kvs "text").getD (.str "") with
        | .str t => extractItems (acc ++ t) rest
        | v => .error (concatTextErr v)
      else extractItems acc rest
    | v => .error (noGetErr v)

/-- Per-event processing of `_parse_json_output`: the text this event
contributes to `assistant_message`, or the exception the Python body
raises on it (only `json.JSONDecodeError` is caught by the loop). -/
def extract_from_event (ev : JVal) : Except PyErr String :=
  match ev with
  | .obj kvs =>
    if optIsStr (objGet kvs "type") "message" && optIsStr (objGet kvs "role") "assistant" then
      match pyIter ((objGet kvs "content").getD (.arr [])) with
      | .error e => .error e
      | .ok items => extractItems "" items
    else .ok ""
  | v => .error (noGetErr v)

/-- The whitespace set of Python's no-argument `str.strip()`
(CPython's unicode whitespace table): TAB..CR, FS..US, space, NEL,
NBSP, OGHAM SPACE MARK, the U+2000..U+200A spaces, LINE SEPARATOR,
PARAGRAPH SEPARATOR, NARROW NO-BREAK SPACE, MEDIUM MATHEMATICAL SPACE
and IDEOGRAPHIC SPACE. -/
def pyIsSpace (c : Char) : Bool :=
  (9 ≤ c.toNat ∧ c.toNat ≤ 13)
  ∨ (28 ≤ c.toNat ∧ c.toNat ≤ 32)
  ∨ c.toNat = 0x85 ∨ c.toNat = 0xa0 ∨ c.toNat = 0x1680
  ∨ (0x2000 ≤ c.toNat ∧ c.toNat ≤ 0x200a)
  ∨ c.toNat = 0x2028 ∨ c.toNat = 0x2029 ∨ c.toNat = 0x202f
  ∨ c.toNat = 0x205f ∨ c.toNat = 0x3000

def dropLeadingWs : List Char → List Char
  | [] => []
  | c :: cs => if pyIsSpace c then dropLeadingWs cs else c :: cs

/-- Model of Python `str.strip()`. -/
def pyStrip (s : String) : String :=
  String.mk (dropLeadingWs (dropLeadingWs s.data).reverse).reverse

def splitNlAux : List Char → List Char → List String
  | acc, [] => [String.mk acc.reverse]
  | acc, c :: cs =>
    if c = '\n' then String.mk acc.reverse :: splitNlAux [] cs
    else splitNlAux (c :: acc) cs

/-- Model of Python `str.split("\n")`. -/
def pySplitNl (s : String) : List String := splitNlAux [] s.data

/-- Result record of `_parse_json_output`. -/
structure ParseOut where
  events : List JVal
  assistant_message : String
  raw_output : String

/-- One iteration of the line loop of `_parse_json_output`: skip blank
lines, skip undecodable lines (`json.JSONDecodeError` is caught), append
every decoded value to `events`, then run the extraction body, whose
exceptions escape the loop. -/
def procLine (acc : List JVal × String) (line : String) :
    Except PyErr (List JVal × String) :=
  if line = "" then .ok acc
  else
    match jsonLoads line with
    | none => .ok acc
    | some ev =>
      match extract_from_event ev with
      | .ok t => .ok (acc.1 ++ [ev], acc.2 ++ t)
      | .error e => .error e

def parseLines (acc : List JVal × String) : List String → Except PyErr (List JVal × String)
  | [] => .ok acc
  | l :: ls =>
    match procLine acc l with
    | .ok acc2 => parseLines acc2 ls
    | .error e => .error e

/-- Model of `_parse_json_output`: fold the stripped, newline-split raw
output through the line loop; a non-`JSONDecodeError` exception raised
by the loop body escapes as `Except.error`. -/
def parse_json_output (output : String) : Except PyErr ParseOut :=
  match parseLines ([], "") (pySplitNl (pyStrip output)) with
  | .ok acc => .ok ⟨acc.1, acc.2, output⟩
  | .error e => .error e


/-- The configuration fields resolved in `__init__` from `params`. -/
structure Config where
  auth_method : String
  api_key : String
  model : String
  sandbox_mode : String
  working_directory : String
  timeout : Nat
  full_auto : Bool
  enable_search : Bool

/-- Outcome of a `subprocess.run` call: completion with exit status and
captured output, `subprocess.TimeoutExpired`, or another exception. -/
inductive RunOutcome where
  | completed (returncode : Int) (stdout stderr : String)
  | timedOut
  | raised (msg : String)

/-- The mutable per-adapter state: `self._authenticated`,
`self._codex_path`, and the ambient `os.environ`. -/
structure DSState where
  authenticated : Bool
  codexPath : Option String
  osEnv : String → Option String

/-- State of a freshly constructed adapter (`__init__`). -/
def initState (env0 : String → Option String) : DSState :=
  { authenticated := false, codexPath := none, osEnv := env0 }

/-- The ambient world the adapter observes: `shutil.which("codex")`,
`os.path.isfile`, the home directory used by `os.path.expanduser`, and
the outcome of the `codex login --device-auth` subprocess. -/
structure World where
  which : Option String
  isFile : String → Bool
  home : String
  login : RunOutcome

/-- Observable side effects, recorded so that idempotence claims
("no re-locate, no re-login") are expressible. -/
inductive Effect where
  | whichLookup
  | statFile (p : String)
  | setEnvVar (k v : String)
  | runLogin

/-- Model of `os.environ[k] = v`. -/
def setEnv (e : String → Option String) (k v : String) : String → Option String :=
  fun k2 => if k2 = k then some v else e k2

/-- The fixed candidate list of `_find_codex_cli`
(`os.path.expanduser` resolved against the world's home directory). -/
def commonPaths (home : String) : List String :=
  [home ++ "/.local/bin/codex",
   home ++ "/bin/codex",
   "/usr/local/bin/codex",
   "C:\\Program Files\\codex\\codex.exe",
   home ++ "\\AppData\\Local\\Programs\\codex\\codex.exe"]

/-- The `for path in common_paths` loop: first existing file wins. -/
def scanPaths (w : World) : List String → Option String × List Effect
  | [] => (none, [])
  | p :: ps =>
    if w.isFile p then (some p, [Effect.statFile p])
    else
      let (r, fx) := scanPaths w ps
      (r, Effect.statFile p :: fx)

/-- Model of `_find_codex_cli`: cached path if truthy, else
`shutil.which`, else the candidate scan; a hit is memoized. -/
def find_codex_cli (w : World) (s : DSState) : Option String × DSState × List Effect :=
  if s.codexPath.getD "" ≠ "" then (s.codexPath, s, [])
  else if w.which.getD "" ≠ "" then
    let p := w.which.getD ""
    (some p, { s with codexPath := some p }, [Effect.whichLookup])
  else
    match scanPaths w (commonPaths w.home) with
    | (some p, fx) => (some p, { s with codexPath := some p }, Effect.whichLookup :: fx)
    | (none, fx) => (none, s, Effect.whichLookup :: fx)

/-- Model of `_trigger_oauth_login`: re-locate the executable, run the
login subprocess; exit code zero marks the adapter authenticated, and
every failure (non-zero exit, timeout, exception) is caught and
reported as `false`. -/
def trigger_oauth_login (w : World) (s : DSState) : Bool × DSState × List Effect :=
  match find_codex_cli w s with
  | (p?, s1, fx) =>
    if p?.getD "" = "" then (false, s1, fx)
    else
      match w.login with
      | .completed rc _out _err =>
        if rc = 0 then (true, { s1 with authenticated := true }, fx ++ [Effect.runLogin])
        else (false, s1, fx ++ [Effect.runLogin])
      | .timedOut => (false, s1, fx ++ [Effect.runLogin])
      | .raised _ => (false, s1, fx ++ [Effect.runLogin])

/-- Model of `_ensure_authenticated`: memoized success, executable
lookup, pre-shared-key export into the environment, or OAuth login. -/
def ensure_authenticated (cfg : Config) (w : World) (s : DSState) :
    Bool × DSState × List Effect :=
  if s.authenticated then (true, s, [])
  else
    match find_codex_cli w s with
    | (p?, s1, fx) =>
      if p?.getD "" = "" then (false, s1, fx)
      else if cfg.auth_method = "api_key" ∧ cfg.api_key ≠ "" then
        (true,
         { s1 with authenticated := true,
                   osEnv := setEnv s1.osEnv "OPENAI_API_KEY" cfg.api_key },
         fx ++ [Effect.setEnvVar "OPENAI_API_KEY" cfg.api_key])
      else if cfg.auth_method = "oauth" then
        match trigger_oauth_login w s1 with
        | (b, s2, fx2) => (b, s2, fx ++ fx2)
      else (false, s1, fx)

/-- Model of `_build_command`: locate the executable (raising
`RuntimeError("Codex CLI not found")` on failure, as `Except.error`),
then append the flags in source order and the prompt last. -/
def build_command (cfg : Config) (w : World) (s : DSState) (message : String) :
    Except String (List String) × DSState :=
  match find_codex_cli w s with
  | (p?, s1, _fx) =>
    if p?.getD "" = "" then (.error "Codex CLI not found", s1)
    else
      let codex := p?.getD ""
      let cmd := [codex, "exec"]
      let cmd := cmd ++ ["--json"]
      let cmd := if cfg.model ≠ "" then cmd ++ ["--model", cfg.model] else cmd
      let cmd := if cfg.sandbox_mode ≠ "" then cmd ++ ["--sandbox", cfg.sandbox_mode] else cmd
      let cmd := if cfg.full_auto then cmd ++ ["--full-auto"] else cmd
      let cmd := if cfg.enable_search then cmd ++ ["--search"] else cmd
      let cmd := if cfg.working_directory ≠ "" then cmd ++ ["--cd", cfg.working_directory] else cmd
      (.ok (cmd ++ [message]), s1)

/-- The message coercion at the top of `_process_message`:
`message.get("content", str(message))` for dicts, then `str(...)`. -/
def coerce_message (m : JVal) : String :=
  match m with
  | .obj kvs => pyStr ((objGet kvs "content").getD (JVal.str (pyStr (JVal.obj kvs))))
  | _ => pyStr m

/-- The result mapping `_process_message` returns: the success shape or
one of the error shapes (`return_code` present only for
`execution_error`). -/
inductive PMResult where
  | success (response : String) (events : List JVal) (original_message : String)
  | error (error_type : String) (message : String) (return_code : Option Int)
      (original_message : String)

/-- The `original_message` field, present in every result shape. -/
def PMResult.original : PMResult → String
  | .success _ _ o => o
  | .error _ _ _ o => o

/-- Model of `_process_message`: coerce the message, authenticate,
build the command, run it (`run` is the subprocess outcome), and
normalize every outcome into one `PMResult`; the `try`/`except` blocks
of the source become the explicit branches here. -/
def process_message (cfg : Config) (w : World) (run : RunOutcome) (s : DSState)
    (message : JVal) : PMResult × DSState :=
  let msg := coerce_message message
  match ensure_authenticated cfg w s with
  | (false, s1, _) =>
    (.error "authentication_error"
      "Failed to authenticate with Codex CLI. Please check your credentials." none msg, s1)
  | (true, s1, _) =>
    match build_command cfg w s1 msg with
    | (.error e, s2) => (.error "exception" e none msg, s2)
    | (.ok _cmd, s2) =>
      match run with
      | .completed rc stdout stderr =>
        if rc ≠ 0 then
          (.error "execution_error" (if stderr = "" then "Codex execution failed" else stderr)
            (some rc) msg, s2)
        else
          match parse_json_output stdout with
          | .error e => (.error "exception" (pyErrStr e) none msg, s2)
          | .ok parsed => (.success parsed.assistant_message parsed.events msg, s2)
      | .timedOut =>
        (.error "timeout"
          ("Codex execution timed out after " ++ toString cfg.timeout ++ " seconds") none msg, s2)
      | .raised m => (.error "exception" m none msg, s2)

/-- Adapter states reachable from a fresh adapter by the modelled
operations (any interleaving, any configurations and worlds). -/
inductive Reachable : DSState → Prop where
  | init (env0 : String → Option String) : Reachable (initState env0)
  | findStep (w : World) (s : DSState) : Reachable s → Reachable (find_codex_cli w s).2.1
  | loginStep (w : World) (s : DSState) : Reachable s → Reachable (trigger_oauth_login w s).2.1
  | ensureStep (cfg : Config) (w : World) (s : DSState) :
      Reachable s → Reachable (ensure_authenticated cfg w s).2.1
  | buildStep (cfg : Config) (w : World) (s : DSState) (m : String) :
      Reachable s → Reachable (build_command cfg w s m).2
  | processStep (cfg : Config) (w : World) (run : RunOutcome) (s : DSState) (m : JVal) :
      Reachable s → Reachable (process_message cfg w run s m).2

/-- An empty process environment, for concrete instantiations. -/
def noEnv : String → Option String := fun _ => none

/-- A freshly constructed adapter. -/
def freshState : DSState := initState noEnv

/-- A world where `shutil.which` finds the executable. -/
def sampleWorld : World :=
  { which := some "/usr/bin/codex", isFile := fun _ => false, home := "/root",
    login := RunOutcome.completed 0 "" "" }

/-- A pre-shared-key configuration with a non-empty credential. -/
def sampleCfg : Config :=
  { auth_method := "api_key", api_key := "k", model := "o4-mini", sandbox_mode := "read-only",
    working_directory := "", timeout := 300, full_auto := true, enable_search := false }

/-- The cache/authentication invariant: a state marked authenticated
has a truthy memoized executable path. -/
def stateInv (s : DSState) : Prop :=
  s.authenticated = true → ∃ p, s.codexPath = some p ∧ p ≠ ""

/-- A content item the extraction loop handles without raising: a JSON
object whose `text` field (consulted only when its `type` is `"text"`)
is a string when present. -/
def contentItemOK (item : JVal) : Bool :=
  match item with
  | .obj kvs =>
    if optIsStr (objGet kvs "type") "text" then
      match (objGet kvs "text").getD (.str "") with
      | .str _ => true
      | _ => false
    else true
  | _ => false

/-- A decoded event of the data-model shape: a JSON object whose
`content` (consulted only for assistant message events) is an array of
well-shaped content items. -/
def eventShapeOK (ev : JVal) : Bool :=
  match ev with
  | .obj kvs =>
    if optIsStr (objGet kvs "type") "message" && optIsStr (objGet kvs "role") "assistant" then
      match objGet kvs "content" with
      | some (.arr items) => items.all contentItemOK
      | none => true
      | some _ => false
    else true
  | _ => false

/-- A protocol line is well shaped when it is undecodable (it will be
skipped) or decodes to a well-shaped event. -/
def lineShapeOK (line : String) : Bool :=
  match jsonLoads line with
  | none => true
  | some ev => eventShapeOK ev

theorem getLast?_append_singleton {α : Type} (l : List α) (a : α) :
    (l ++ [a]).getLast? = some a := by
  rw [List.getLast?_append_cons]
  rfl

/-- The argument vector `_build_command` produces when the executable is
found: the flags in source order, the prompt last. -/
theorem build_command_flag_order (cfg : Config) (w : World) (s s1 : DSState)
    (fx : List Effect) (p path : String)
    (hfind : find_codex_cli w s = (some path, s1, fx)) (hpath : path ≠ "") :
    (build_command cfg w s p).1 =
      Except.ok ([path, "exec", "--json"]
        ++ (if cfg.model ≠ "" then ["--model", cfg.model] else [])
        ++ (if cfg.sandbox_mode ≠ "" then ["--sandbox", cfg.sandbox_mode] else [])
        ++ (if cfg.full_auto then ["--full-auto"] else [])
        ++ (if cfg.enable_search then ["--search"] else [])
        ++ (if cfg.working_directory ≠ "" then ["--cd", cfg.working_directory] else [])
        ++ [p])
    ∧ ∀ argv, (build_command cfg w s p).1 = Except.ok argv → argv.getLast? = some p := by
  have heq : (build_command cfg w s p).1 =
      Except.ok ([path, "exec", "--json"]
        ++ (if cfg.model ≠ "" then ["--model", cfg.model] else [])
        ++ (if cfg.sandbox_mode ≠ "" then ["--sandbox", cfg.sandbox_mode] else [])
        ++ (if cfg.full_auto then ["--full-auto"] else [])
        ++ (if cfg.enable_search then ["--search"] else [])
        ++ (if cfg.working_directory ≠ "" then ["--cd", cfg.working_directory] else [])
        ++ [p]) := by
    simp only [build_command, hfind, Option.getD_some]
    rw [if_neg hpath]
    split_ifs <;> simp
  refine ⟨heq, fun argv hargv => ?_⟩
  rw [heq] at hargv
  cases hargv
  rw [getLast?_append_singleton]

theorem build_command_flag_order_witness :
    (build_command sampleCfg sampleWorld freshState "hi").1 =
      Except.ok ["/usr/bin/codex", "exec", "--json", "--model", "o4-mini",
        "--sandbox", "read-only", "--full-auto", "hi"]
    ∧ ∀ argv, (build_command sampleCfg sampleWorld freshState "hi").1 = Except.ok argv →
        argv.getLast? = some "hi" := by
  exact build_command_flag_order sampleCfg sampleWorld freshState
    { freshState with codexPath := some "/usr/bin/codex" } [Effect.whichLookup]
    "hi" "/usr/bin/codex" rfl (by decide)

/-- Every call of `_process_message` returns exactly one result value: the
success shape or an error shape with one of the four error types, each
echoing the coerced original message. -/
theorem process_message_result_shape (cfg : Config) (w : World) (run : RunOutcome)
    (s : DSState) (m : JVal) :
    (∃ resp evs, (process_message cfg w run s m).1
        = PMResult.success resp evs (coerce_message m))
    ∨ (∃ et emsg rc, (process_message cfg w run s m).1
        = PMResult.error et emsg rc (coerce_message m)
        ∧ (et = "authentication_error" ∨ et = "execution_error" ∨ et = "timeout"
           ∨ et = "exception")) := by
  rcases hE : ensure_authenticated cfg w s with ⟨b, s1, fx⟩
  cases b
  · simp only [process_message, hE]
    exact Or.inr ⟨_, _, _, rfl, by simp⟩
  · rcases hB : build_command cfg w s1 (coerce_message m) with ⟨res, s2⟩
    cases res with
    | error e =>
      simp only [process_message, hE, hB]
      exact Or.inr ⟨_, _, _, rfl, by simp⟩
    | ok argv =>
      cases run with
      | timedOut =>
        simp only [process_message, hE, hB]
        exact Or.inr ⟨_, _, _, rfl, by simp⟩
      | raised msg2 =>
        simp only [process_message, hE, hB]
        exact Or.inr ⟨_, _, _, rfl, by simp⟩
      | completed rc out err =>
        by_cases hrc : rc = 0
        · rcases hP : parse_json_output out with e | parsed
          · simp only [process_message, hE, hB, hrc, hP]
            exact Or.inr ⟨_, _, _, rfl, by simp⟩
          · simp only [process_message, hE, hB, hrc, hP]
            exact Or.inl ⟨_, _, rfl⟩
        · simp only [process_message, hE, hB]
          rw [if_pos hrc]
          exact Or.inr ⟨_, _, _, rfl, by simp⟩

/-- When the deadline elapses before the subprocess completes
(`subprocess.TimeoutExpired`), the result is the `timeout` error shape,
whose message states the configured deadline. -/
theorem process_message_timeout (cfg : Config) (w : World) (s s1 s2 : DSState)
    (fx : List Effect) (argv : List String) (m : JVal)
    (hE : ensure_authenticated cfg w s = (true, s1, fx))
    (hB : build_command cfg w s1 (coerce_message m) = (Except.ok argv, s2)) :
    (process_message cfg w RunOutcome.timedOut s m).1 =
      PMResult.error "timeout"
        ("Codex execution timed out after " ++ toString cfg.timeout ++ " seconds")
        none (coerce_message m) := by
  simp only [process_message, hE, hB]

theorem process_message_timeout_witness :
    (process_message sampleCfg sampleWorld RunOutcome.timedOut freshState (JVal.str "hi")).1 =
      PMResult.error "timeout"
        ("Codex execution timed out after " ++ toString sampleCfg.timeout ++ " seconds")
        none (coerce_message (JVal.str "hi")) := by
  exact process_message_timeout sampleCfg sampleWorld freshState
    { authenticated := true, codexPath := some "/usr/bin/codex",
      osEnv := setEnv noEnv "OPENAI_API_KEY" "k" }
    { authenticated := true, codexPath := some "/usr/bin/codex",
      osEnv := setEnv noEnv "OPENAI_API_KEY" "k" }
    [Effect.whichLookup, Effect.setEnvVar "OPENAI_API_KEY" "k"]
    ["/usr/bin/codex", "exec", "--json", "--model", "o4-mini",
     "--sandbox", "read-only", "--full-auto", "hi"]
    (JVal.str "hi") rfl rfl

/-- When the subprocess completes with a non-zero exit code, the result
is the `execution_error` shape: `return_code` is the exit code and the
message is the captured stderr, or the fallback literal when stderr is
empty. -/
theorem process_message_nonzero_exit (cfg : Config) (w : World) (s s1 s2 : DSState)
    (fx : List Effect) (argv : List String) (m : JVal) (rc : Int) (out err : String)
    (hE : ensure_authenticated cfg w s = (true, s1, fx))
    (hB : build_command cfg w s1 (coerce_message m) = (Except.ok argv, s2))
    (hrc : rc ≠ 0) :
    (process_message cfg w (RunOutcome.completed rc out err) s m).1 =
      PMResult.error "execution_error"
        (if err = "" then "Codex execution failed" else err)
        (some rc) (coerce_message m) := by
  simp only [process_message, hE, hB]
  rw [if_pos hrc]

theorem process_message_nonzero_exit_witness :
    (process_message sampleCfg sampleWorld
        (RunOutcome.completed 1 "" "bad sandbox flag") freshState (JVal.str "hi")).1 =
      PMResult.error "execution_error" "bad sandbox flag" (some 1)
        (coerce_message (JVal.str "hi")) := by
  exact process_message_nonzero_exit sampleCfg sampleWorld freshState
    { authenticated := true, codexPath := some "/usr/bin/codex",
      osEnv := setEnv noEnv "OPENAI_API_KEY" "k" }
    { authenticated := true, codexPath := some "/usr/bin/codex",
      osEnv := setEnv noEnv "OPENAI_API_KEY" "k" }
    [Effect.whichLookup, Effect.setEnvVar "OPENAI_API_KEY" "k"]
    ["/usr/bin/codex", "exec", "--json", "--model", "o4-mini",
     "--sandbox", "read-only", "--full-auto", "hi"]
    (JVal.str "hi") 1 "" "bad sandbox flag" rfl rfl (by decide)

theorem find_codex_cli_authenticated (w : World) (s : DSState) :
    (find_codex_cli w s).2.1.authenticated = s.authenticated := by
  unfold find_codex_cli
  split_ifs
  · rfl
  · rfl
  · rcases hscan : scanPaths w (commonPaths w.home) with ⟨r, fx⟩
    cases r <;> simp [hscan]

/-- Pre-shared-key mode with a non-empty credential and a locatable
executable: the first call returns true after exporting the credential
into the environment, and every later call returns true immediately,
with no observable effects (no re-locate, no login subprocess). -/
theorem ensure_authenticated_api_key_idempotent (cfg : Config) (w : World) (s s1 : DSState)
    (fx : List Effect) (p : String)
    (hmode : cfg.auth_method = "api_key") (hkey : cfg.api_key ≠ "")
    (hauth : s.authenticated = false)
    (hfind : find_codex_cli w s = (some p, s1, fx)) (hp : p ≠ "") :
    (ensure_authenticated cfg w s).1 = true
    ∧ (ensure_authenticated cfg w s).2.1.osEnv "OPENAI_API_KEY" = some cfg.api_key
    ∧ (ensure_authenticated cfg w s).2.1.authenticated = true
    ∧ ∀ w2 : World, ensure_authenticated cfg w2 (ensure_authenticated cfg w s).2.1
        = (true, (ensure_authenticated cfg w s).2.1, []) := by
  have hmain : ensure_authenticated cfg w s =
      (true,
       { s1 with authenticated := true,
                 osEnv := setEnv s1.osEnv "OPENAI_API_KEY" cfg.api_key },
       fx ++ [Effect.setEnvVar "OPENAI_API_KEY" cfg.api_key]) := by
    simp only [ensure_authenticated, hauth, Bool.false_eq_true, if_false, hfind,
      Option.getD_some]
    rw [if_neg hp, if_pos ⟨hmode, hkey⟩]
  refine ⟨by rw [hmain], by rw [hmain]; simp [setEnv], by rw [hmain], fun w2 => ?_⟩
  rw [hmain]
  simp [ensure_authenticated]

theorem ensure_authenticated_api_key_idempotent_witness :
    (ensure_authenticated sampleCfg sampleWorld freshState).1 = true
    ∧ (ensure_authenticated sampleCfg sampleWorld freshState).2.1.osEnv "OPENAI_API_KEY"
        = some sampleCfg.api_key
    ∧ (ensure_authenticated sampleCfg sampleWorld freshState).2.1.authenticated = true
    ∧ ∀ w2 : World,
        ensure_authenticated sampleCfg w2 (ensure_authenticated sampleCfg sampleWorld freshState).2.1
          = (true, (ensure_authenticated sampleCfg sampleWorld freshState).2.1, []) := by
  exact ensure_authenticated_api_key_idempotent sampleCfg sampleWorld freshState
    { freshState with codexPath := some "/usr/bin/codex" } [Effect.whichLookup]
    "/usr/bin/codex" rfl (by decide) rfl rfl (by decide)

/-- Pre-shared-key mode with an empty credential: `_ensure_authenticated`
returns false (and leaves the adapter unauthenticated), whether or not
the executable is found. -/
theorem ensure_authenticated_empty_key (cfg : Config) (w : World) (s : DSState)
    (hmode : cfg.auth_method = "api_key") (hkey : cfg.api_key = "")
    (hauth : s.authenticated = false) :
    (ensure_authenticated cfg w s).1 = false
    ∧ (ensure_authenticated cfg w s).2.1.authenticated = false := by
  have hfa := find_codex_cli_authenticated w s
  rcases hf : find_codex_cli w s with ⟨p?, s1, fx⟩
  rw [hf] at hfa
  have hnotand : ¬ (cfg.auth_method = "api_key" ∧ cfg.api_key ≠ "") := by
    rintro ⟨-, hne⟩
    exact hne hkey
  have hnotoauth : cfg.auth_method ≠ "oauth" := by
    rw [hmode]
    decide
  simp only [ensure_authenticated, hauth, Bool.false_eq_true, if_false, hf]
  split_ifs <;> simp_all

theorem ensure_authenticated_empty_key_witness :
    (ensure_authenticated
        { sampleCfg with api_key := "" } sampleWorld freshState).1 = false
    ∧ (ensure_authenticated
        { sampleCfg with api_key := "" } sampleWorld freshState).2.1.authenticated = false := by
  exact ensure_authenticated_empty_key { sampleCfg with api_key := "" } sampleWorld freshState
    rfl rfl rfl

theorem build_command_last (cfg : Config) (w : World) (s : DSState) (msg : String)
    (argv : List String) (s2 : DSState)
    (h : build_command cfg w s msg = (Except.ok argv, s2)) :
    argv.getLast? = some msg := by
  rcases hf : find_codex_cli w s with ⟨p?, s1, fx⟩
  simp only [build_command, hf] at h
  by_cases hcond : p?.getD "" = ""
  · rw [if_pos hcond] at h
    simp at h
  · rw [if_neg hcond] at h
    simp only [Prod.mk.injEq, Except.ok.injEq] at h
    rw [← h.1]
    exact getLast?_append_singleton _ _

/-- The message coercion of `_process_message`: the `original_message`
field of every result shape is the coerced string (the `content` value
of a dict, else Python `str()` of the value), and whenever the command
build succeeds, that same coerced string is the last argument sent. -/
theorem process_message_original_coercion (cfg : Config) (w : World) (run : RunOutcome)
    (s : DSState) (m : JVal) :
    (process_message cfg w run s m).1.original = coerce_message m
    ∧ ∀ (argv : List String) (s2 : DSState),
        build_command cfg w (ensure_authenticated cfg w s).2.1 (coerce_message m)
          = (Except.ok argv, s2) →
        argv.getLast? = some (coerce_message m) := by
  refine ⟨?_, fun argv s2 h => build_command_last _ _ _ _ _ _ h⟩
  rcases hE : ensure_authenticated cfg w s with ⟨b, s1, fx⟩
  cases b
  · simp only [process_message, hE, PMResult.original]
  · rcases hB : build_command cfg w s1 (coerce_message m) with ⟨res, s2⟩
    cases res with
    | error e => simp only [process_message, hE, hB, PMResult.original]
    | ok argv =>
      cases run with
      | timedOut => simp only [process_message, hE, hB, PMResult.original]
      | raised msg2 => simp only [process_message, hE, hB, PMResult.original]
      | completed rc out err =>
        by_cases hrc : rc = 0
        · rcases hP : parse_json_output out with e | parsed
          · simp only [process_message, hE, hB, hrc, hP]
            rfl
          · simp only [process_message, hE, hB, hrc, hP]
            rfl
        · simp only [process_message, hE, hB]
          rw [if_pos hrc]
          rfl

theorem process_message_original_coercion_witness :
    (process_message sampleCfg sampleWorld RunOutcome.timedOut freshState
        (JVal.obj [("content", JVal.str "do it")])).1.original
      = coerce_message (JVal.obj [("content", JVal.str "do it")])
    ∧ (["/usr/bin/codex", "exec", "--json", "--model", "o4-mini", "--sandbox", "read-only",
        "--full-auto", "do it"] : List String).getLast?
      = some (coerce_message (JVal.obj [("content", JVal.str "do it")])) := by
  have h := process_message_original_coercion sampleCfg sampleWorld RunOutcome.timedOut
    freshState (JVal.obj [("content", JVal.str "do it")])
  exact ⟨h.1, h.2 _ _ rfl⟩

theorem append_ne_empty_of_right (a b : String) (hb : b.data ≠ []) : a ++ b ≠ "" := by
  intro h
  have hd := congrArg String.data h
  rw [String.data_append] at hd
  exact hb (List.append_eq_nil.mp hd).2

theorem commonPaths_ne_empty (home q : String) (hq : q ∈ commonPaths home) : q ≠ "" := by
  simp only [commonPaths, List.mem_cons, List.not_mem_nil, or_false] at hq
  rcases hq with rfl | rfl | rfl | rfl | rfl
  · exact append_ne_empty_of_right _ _ (by decide)
  · exact append_ne_empty_of_right _ _ (by decide)
  · decide
  · decide
  · exact append_ne_empty_of_right _ _ (by decide)

theorem scanPaths_mem (w : World) (ps : List String) (p : String)
    (h : (scanPaths w ps).1 = some p) : p ∈ ps := by
  induction ps with
  | nil => simp [scanPaths] at h
  | cons q qs ih =>
    simp only [scanPaths] at h
    split_ifs at h with hq
    · simp only at h
      cases h
      exact List.mem_cons_self _ _
    · rcases hs : scanPaths w qs with ⟨r, fx2⟩
      rw [hs] at h
      simp only at h
      exact List.mem_cons_of_mem _ (ih (by rw [hs]; exact h))

/-- Calling `_find_codex_cli` either fails and leaves the state unchanged, or
returns a truthy path which is also memoized; the authentication flag
and environment are untouched. -/
theorem find_codex_cli_main (w : World) (s : DSState) :
    ((find_codex_cli w s).1 = none ∧ (find_codex_cli w s).2.1 = s)
    ∨ ∃ p, p ≠ "" ∧ (find_codex_cli w s).1 = some p
        ∧ (find_codex_cli w s).2.1.codexPath = some p
        ∧ (find_codex_cli w s).2.1.authenticated = s.authenticated
        ∧ (find_codex_cli w s).2.1.osEnv = s.osEnv := by
  unfold find_codex_cli
  by_cases h1 : s.codexPath.getD "" ≠ ""
  · rw [if_pos h1]
    right
    rcases hcp : s.codexPath with _ | p
    · rw [hcp] at h1
      simp at h1
    · rw [hcp] at h1
      exact ⟨p, by simpa using h1, rfl, rfl, rfl, rfl⟩
  · rw [if_neg h1]
    by_cases h2 : w.which.getD "" ≠ ""
    · rw [if_pos h2]
      exact Or.inr ⟨w.which.getD "", h2, rfl, rfl, rfl, rfl⟩
    · rw [if_neg h2]
      rcases hs : scanPaths w (commonPaths w.home) with ⟨r, fx⟩
      cases r with
      | none => exact Or.inl ⟨rfl, rfl⟩
      | some p =>
        exact Or.inr ⟨p,
          commonPaths_ne_empty w.home p (scanPaths_mem w _ p (by rw [hs])),
          rfl, rfl, rfl, rfl⟩

theorem find_preserves_inv (w : World) (s : DSState) (h : stateInv s) :
    stateInv (find_codex_cli w s).2.1 := by
  rcases find_codex_cli_main w s with ⟨-, heq⟩ | ⟨p, hp, -, hcp, -, -⟩
  · rw [heq]
    exact h
  · exact fun _ => ⟨p, hcp, hp⟩

theorem find_some_strong (w : World) (s : DSState) (p : String)
    (h : (find_codex_cli w s).1 = some p) :
    p ≠ "" ∧ (find_codex_cli w s).2.1.codexPath = some p := by
  rcases find_codex_cli_main w s with ⟨hn, -⟩ | ⟨q, hq, hq1, hq2, -, -⟩
  · rw [h] at hn
    cases hn
  · have hqp : q = p := by
      have := hq1.symm.trans h
      injection this
    subst hqp
    exact ⟨hq, hq2⟩

theorem login_preserves_inv (w : World) (s : DSState) (h : stateInv s) :
    stateInv (trigger_oauth_login w s).2.1 := by
  rcases hf : find_codex_cli w s with ⟨p?, s1, fx⟩
  have hs1 : (find_codex_cli w s).2.1 = s1 := by rw [hf]
  have hinv1 : stateInv s1 := hs1 ▸ find_preserves_inv w s h
  simp only [trigger_oauth_login, hf]
  by_cases hp : p?.getD "" = ""
  · rw [if_pos hp]
    exact hinv1
  · rw [if_neg hp]
    rcases hcp : p? with _ | p
    · rw [hcp] at hp
      simp at hp
    · have hstrong := find_some_strong w s p (by rw [hf, hcp])
      rw [hs1] at hstrong
      have hs1inv : ∀ t : DSState, t.codexPath = s1.codexPath → stateInv t :=
        fun t ht _ => ⟨p, ht ▸ hstrong.2, hstrong.1⟩
      cases w.login with
      | completed rc out err =>
        dsimp only
        by_cases hrc : rc = 0
        · rw [if_pos hrc]
          exact hs1inv _ rfl
        · rw [if_neg hrc]
          exact hinv1
      | timedOut => exact hinv1
      | raised m => exact hinv1

theorem ensure_preserves_inv (cfg : Config) (w : World) (s : DSState) (h : stateInv s) :
    stateInv (ensure_authenticated cfg w s).2.1 := by
  by_cases hauth : s.authenticated
  · simp only [ensure_authenticated, hauth, if_true]
    exact h
  · rcases hf : find_codex_cli w s with ⟨p?, s1, fx⟩
    have hs1 : (find_codex_cli w s).2.1 = s1 := by rw [hf]
    have hinv1 : stateInv s1 := hs1 ▸ find_preserves_inv w s h
    simp only [ensure_authenticated, hauth, if_false, hf]
    by_cases hp : p?.getD "" = ""
    · rw [if_pos hp]
      exact hinv1
    · rw [if_neg hp]
      rcases hcp : p? with _ | p
      · rw [hcp] at hp
        simp at hp
      · have hstrong := find_some_strong w s p (by rw [hf, hcp])
        rw [hs1] at hstrong
        by_cases hak : cfg.auth_method = "api_key" ∧ cfg.api_key ≠ ""
        · rw [if_pos hak]
          exact fun _ => ⟨p, hstrong.2, hstrong.1⟩
        · rw [if_neg hak]
          by_cases hoa : cfg.auth_method = "oauth"
          · rw [if_pos hoa]
            rcases hl : trigger_oauth_login w s1 with ⟨b2, s2, fx2⟩
            have hs2 : (trigger_oauth_login w s1).2.1 = s2 := by rw [hl]
            exact hs2 ▸ login_preserves_inv w s1 hinv1
          · rw [if_neg hoa]
            exact hinv1

theorem build_preserves_inv (cfg : Config) (w : World) (s : DSState) (m : String)
    (h : stateInv s) : stateInv (build_command cfg w s m).2 := by
  rcases hf : find_codex_cli w s with ⟨p?, s1, fx⟩
  have hs1 : (find_codex_cli w s).2.1 = s1 := by rw [hf]
  have hinv1 : stateInv s1 := hs1 ▸ find_preserves_inv w s h
  simp only [build_command, hf]
  by_cases hp : p?.getD "" = ""
  · rw [if_pos hp]
    exact hinv1
  · rw [if_neg hp]
    exact hinv1

theorem process_preserves_inv (cfg : Config) (w : World) (run : RunOutcome) (s : DSState)
    (m : JVal) (h : stateInv s) : stateInv (process_message cfg w run s m).2 := by
  rcases hE : ensure_authenticated cfg w s with ⟨b, s1, fx⟩
  have hs1 : (ensure_authenticated cfg w s).2.1 = s1 := by rw [hE]
  have hinv1 : stateInv s1 := hs1 ▸ ensure_preserves_inv cfg w s h
  cases b
  · simp only [process_message, hE]
    exact hinv1
  · rcases hB : build_command cfg w s1 (coerce_message m) with ⟨res, s2⟩
    have hs2 : (build_command cfg w s1 (coerce_message m)).2 = s2 := by rw [hB]
    have hinv2 : stateInv s2 := hs2 ▸ build_preserves_inv cfg w s1 (coerce_message m) hinv1
    cases res with
    | error e =>
      simp only [process_message, hE, hB]
      exact hinv2
    | ok argv =>
      cases run with
      | timedOut =>
        simp only [process_message, hE, hB]
        exact hinv2
      | raised m2 =>
        simp only [process_message, hE, hB]
        exact hinv2
      | completed rc out err =>
        by_cases hrc : rc = 0
        · rcases hP : parse_json_output out with e | parsed
          · simp only [process_message, hE, hB, hrc, hP]
            exact hinv2
          · simp only [process_message, hE, hB, hrc, hP]
            exact hinv2
        · simp only [process_message, hE, hB]
          rw [if_pos hrc]
          exact hinv2

theorem reachable_inv (s : DSState) (h : Reachable s) : stateInv s := by
  induction h with
  | init env0 => intro hfalse; cases hfalse
  | findStep w s hs ih => exact find_preserves_inv w s ih
  | loginStep w s hs ih => exact login_preserves_inv w s ih
  | ensureStep cfg w s hs ih => exact ensure_preserves_inv cfg w s ih
  | buildStep cfg w s m hs ih => exact build_preserves_inv cfg w s m ih
  | processStep cfg w run s m hs ih => exact process_preserves_inv cfg w run s m ih

theorem find_cache_hit (w : World) (s : DSState) (p : String)
    (hcp : s.codexPath = some p) (hp : p ≠ "") :
    find_codex_cli w s = (some p, s, []) := by
  unfold find_codex_cli
  rw [hcp, if_pos (by simpa using hp)]

theorem trigger_true_cache (w : World) (s : DSState) (p : String)
    (hcp : s.codexPath = some p) (hp : p ≠ "") (b2 : Bool) (s2 : DSState) (fx2 : List Effect)
    (hl : trigger_oauth_login w s = (b2, s2, fx2)) (hb : b2 = true) :
    s2.codexPath = some p := by
  subst hb
  have hf := find_cache_hit w s p hcp hp
  simp only [trigger_oauth_login, hf] at hl
  rw [if_neg (by simpa using hp)] at hl
  cases hlog : w.login with
  | completed rc out err =>
    rw [hlog] at hl
    dsimp only at hl
    by_cases hrc : rc = 0
    · rw [if_pos hrc] at hl
      simp only [Prod.mk.injEq] at hl
      rw [← hl.2.1]
      exact hcp
    · rw [if_neg hrc] at hl
      simp at hl
  | timedOut =>
    rw [hlog] at hl
    simp at hl
  | raised m =>
    rw [hlog] at hl
    simp at hl

theorem ensure_true_cache (cfg : Config) (w : World) (s s1 : DSState) (fx : List Effect)
    (hinv : stateInv s) (hE : ensure_authenticated cfg w s = (true, s1, fx)) :
    ∃ p, s1.codexPath = some p ∧ p ≠ "" := by
  by_cases hauth : s.authenticated
  · simp only [ensure_authenticated, hauth, if_true, Prod.mk.injEq] at hE
    obtain ⟨-, h2, -⟩ := hE
    subst h2
    exact hinv hauth
  · rcases hf : find_codex_cli w s with ⟨p?, sf, fxf⟩
    have hsf : (find_codex_cli w s).2.1 = sf := by rw [hf]
    simp only [ensure_authenticated, hauth, Bool.false_eq_true, if_false, hf] at hE
    by_cases hp : p?.getD "" = ""
    · rw [if_pos hp] at hE
      simp at hE
    · rw [if_neg hp] at hE
      rcases hcp? : p? with _ | p
      · rw [hcp?] at hp
        simp at hp
      · have hstrong := find_some_strong w s p (by rw [hf, hcp?])
        rw [hsf] at hstrong
        by_cases hak : cfg.auth_method = "api_key" ∧ cfg.api_key ≠ ""
        · rw [if_pos hak] at hE
          simp only [Prod.mk.injEq] at hE
          refine ⟨p, ?_, hstrong.1⟩
          rw [← hE.2.1]
          exact hstrong.2
        · rw [if_neg hak] at hE
          by_cases hoa : cfg.auth_method = "oauth"
          · rw [if_pos hoa] at hE
            rcases hl : trigger_oauth_login w sf with ⟨b2, s2, fx2⟩
            rw [hl] at hE
            simp only [Prod.mk.injEq] at hE
            obtain ⟨hb2, hs2, -⟩ := hE
            refine ⟨p, ?_, hstrong.1⟩
            rw [← hs2]
            exact trigger_true_cache w sf p hstrong.2 hstrong.1 b2 s2 fx2 hl hb2
          · rw [if_neg hoa] at hE
            simp at hE

/-- Whenever `_ensure_authenticated` returns true on a reachable
adapter state, the executable-path cache is populated with a truthy
path, so `_build_command` on the post-authentication state cannot take
its "Codex CLI not found" failure branch. -/
theorem ensure_true_build_ok (cfg : Config) (w : World) (s s1 : DSState) (fx : List Effect)
    (msg : String) (hreach : Reachable s)
    (hE : ensure_authenticated cfg w s = (true, s1, fx)) :
    (∃ p, s1.codexPath = some p ∧ p ≠ "")
    ∧ ∃ argv, (build_command cfg w s1 msg).1 = Except.ok argv := by
  obtain ⟨p, hcp, hp⟩ := ensure_true_cache cfg w s s1 fx (reachable_inv s hreach) hE
  refine ⟨⟨p, hcp, hp⟩, ?_⟩
  have hf := find_cache_hit w s1 p hcp hp
  rcases hres : (build_command cfg w s1 msg).1 with e | argv
  · exfalso
    simp only [build_command, hf] at hres
    rw [if_neg (by simpa using hp)] at hres
    simp at hres
  · exact ⟨argv, rfl⟩

theorem ensure_true_build_ok_witness :
    (∃ p, (DSState.mk true (some "/usr/bin/codex") (setEnv noEnv "OPENAI_API_KEY" "k")).codexPath
        = some p ∧ p ≠ "")
    ∧ ∃ argv, (build_command sampleCfg sampleWorld
        (DSState.mk true (some "/usr/bin/codex") (setEnv noEnv "OPENAI_API_KEY" "k")) "q").1
      = Except.ok argv := by
  exact ensure_true_build_ok sampleCfg sampleWorld freshState
    (DSState.mk true (some "/usr/bin/codex") (setEnv noEnv "OPENAI_API_KEY" "k"))
    [Effect.whichLookup, Effect.setEnvVar "OPENAI_API_KEY" "k"] "q"
    (Reachable.init noEnv) rfl

theorem extractItems_ok (items : List JVal) (acc : String)
    (h : items.all contentItemOK = true) : ∃ t, extractItems acc items = .ok t := by
  induction items generalizing acc with
  | nil => exact ⟨acc, rfl⟩
  | cons item rest ih =>
    rw [List.all_cons, Bool.and_eq_true] at h
    obtain ⟨h1, h2⟩ := h
    cases item with
    | obj kvs =>
      simp only [extractItems]
      by_cases ht : optIsStr (objGet kvs "type") "text" = true
      · rw [if_pos ht]
        simp only [contentItemOK, ht, if_true] at h1
        split at h1
        · rename_i t heq
          exact ih (acc ++ t) h2
        · simp at h1
      · rw [if_neg ht]
        exact ih acc h2
    | null => simp [contentItemOK] at h1
    | bool b => simp [contentItemOK] at h1
    | num n => simp [contentItemOK] at h1
    | float fr => simp [contentItemOK] at h1
    | str t => simp [contentItemOK] at h1
    | arr xs => simp [contentItemOK] at h1

theorem extract_from_event_ok (ev : JVal) (h : eventShapeOK ev = true) :
    ∃ t, extract_from_event ev = .ok t := by
  cases ev with
  | obj kvs =>
    simp only [extract_from_event]
    by_cases ha : (optIsStr (objGet kvs "type") "message"
        && optIsStr (objGet kvs "role") "assistant") = true
    · rw [if_pos ha]
      simp only [eventShapeOK, ha, if_true] at h
      split at h
      · rename_i items heq
        rw [heq]
        exact extractItems_ok items "" h
      · rename_i heq
        rw [heq]
        exact ⟨"", rfl⟩
      · simp at h
    · rw [if_neg ha]
      exact ⟨"", rfl⟩
  | null => simp [eventShapeOK] at h
  | bool b => simp [eventShapeOK] at h
  | num n => simp [eventShapeOK] at h
  | float fr => simp [eventShapeOK] at h
  | str t => simp [eventShapeOK] at h
  | arr xs => simp [eventShapeOK] at h

theorem parseLines_ok (ls : List String) (acc : List JVal × String)
    (h : ∀ l ∈ ls, lineShapeOK l = true) :
    ∃ msg, parseLines acc ls = .ok (acc.1 ++ ls.filterMap jsonLoads, msg) := by
  induction ls generalizing acc with
  | nil => exact ⟨acc.2, by simp [parseLines]⟩
  | cons l ls ih =>
    have hl := h l (List.mem_cons_self _ _)
    have hrest : ∀ l' ∈ ls, lineShapeOK l' = true :=
      fun l' hm => h l' (List.mem_cons_of_mem _ hm)
    simp only [parseLines, procLine]
    by_cases he : l = ""
    · rw [if_pos he]
      subst he
      have h0 : jsonLoads "" = none := rfl
      simp only [List.filterMap_cons, h0]
      exact ih acc hrest
    · rw [if_neg he]
      rcases hj : jsonLoads l with _ | ev
      · simp only [List.filterMap_cons, hj]
        exact ih acc hrest
      · have hev : eventShapeOK ev = true := by
          have hx := hl
          simp only [lineShapeOK, hj] at hx
          exact hx
        obtain ⟨t, ht⟩ := extract_from_event_ok ev hev
        dsimp only
        rw [ht]
        dsimp only
        simp only [List.filterMap_cons, hj]
        obtain ⟨msg, hmsg⟩ := ih (acc.1 ++ [ev], acc.2 ++ t) hrest
        refine ⟨msg, ?_⟩
        rw [hmsg]
        simp [List.append_assoc]

theorem parseLines_skip (ls : List String) (acc : List JVal × String)
    (h : ∀ l ∈ ls, jsonLoads l = none) : parseLines acc ls = .ok acc := by
  induction ls generalizing acc with
  | nil => rfl
  | cons l ls ih =>
    have hl := h l (List.mem_cons_self _ _)
    have hrest : ∀ l' ∈ ls, jsonLoads l' = none :=
      fun l' hm => h l' (List.mem_cons_of_mem _ hm)
    simp only [parseLines, procLine]
    by_cases he : l = ""
    · rw [if_pos he]
      exact ih acc hrest
    · rw [if_neg he, hl]
      exact ih acc hrest

/-- When every line of the (stripped, split) raw output is either
undecodable or decodes to an event of the data-model shape,
`_parse_json_output` returns normally, with exactly the successfully
decoded values as events, in arrival order; in the worst case (no line
decodes) the result has zero events and an empty assistant message. -/
theorem parse_json_output_total_on_wellshaped (output : String)
    (h : ∀ l ∈ pySplitNl (pyStrip output), lineShapeOK l = true) :
    (∃ r, parse_json_output output = Except.ok r
      ∧ r.events = (pySplitNl (pyStrip output)).filterMap jsonLoads
      ∧ r.raw_output = output)
    ∧ ((∀ l ∈ pySplitNl (pyStrip output), jsonLoads l = none) →
        parse_json_output output = Except.ok ⟨[], "", output⟩) := by
  constructor
  · obtain ⟨msg, hmsg⟩ := parseLines_ok (pySplitNl (pyStrip output)) ([], "") h
    rw [List.nil_append] at hmsg
    refine ⟨⟨(pySplitNl (pyStrip output)).filterMap jsonLoads, msg, output⟩, ?_, rfl, rfl⟩
    simp only [parse_json_output, hmsg]
  · intro hall
    have hskip := parseLines_skip (pySplitNl (pyStrip output)) ([], "") hall
    simp only [parse_json_output, hskip]

theorem parse_json_output_total_on_wellshaped_witness :
    (∃ r, parse_json_output "status line\n\x7b\"type\":\"other\"\x7d" = Except.ok r
      ∧ r.events
          = (pySplitNl (pyStrip "status line\n\x7b\"type\":\"other\"\x7d")).filterMap jsonLoads
      ∧ r.raw_output = "status line\n\x7b\"type\":\"other\"\x7d")
    ∧ ((∀ l ∈ pySplitNl (pyStrip "status line\n\x7b\"type\":\"other\"\x7d"),
          jsonLoads l = none) →
        parse_json_output "status line\n\x7b\"type\":\"other\"\x7d"
          = Except.ok ⟨[], "", "status line\n\x7b\"type\":\"other\"\x7d"⟩) :=
  parse_json_output_total_on_wellshaped _ (by decide)

/-- Counterexample to the unconditional claim: on the raw output `5`
the decoded value is an int, `event.get("type")` raises
`AttributeError`, and the exception escapes `_parse_json_output` (only
`json.JSONDecodeError` is caught). -/
theorem parse_json_output_raises_on_int_line :
    parse_json_output "5" = Except.error
      (PyErr.attributeError "\x27int\x27 object has no attribute \x27get\x27") := rfl

/-- Round trip: an assistant message event line followed by a malformed
line yields assistant text `"Hello"` and exactly one event. -/
theorem parse_round_trip_hello :
    ∃ r, parse_json_output
        "\x7b\"type\":\"message\",\"role\":\"assistant\",\"content\":[\x7b\"type\":\"text\",\"text\":\"Hello\"\x7d]\x7d\nnot-json"
        = Except.ok r
      ∧ r.assistant_message = "Hello" ∧ r.events.length = 1 :=
  ⟨_, rfl, rfl, rfl⟩
